import Mathlib

/-!
Verification of `proteinprep.py` (a PDB fetch/clean/convert pipeline).

Python strings are embedded as `List Char`; files as lists of lines.
Side-effecting code (the download loop, the per-target pipeline of `main`,
and the file writes of `clean_pdb`) is embedded with explicit state and
effect oracles: `requests.get` / `subprocess.run` / `os.path.exists` become
function-valued parameters, and the sequence of file-system effects of
`clean_pdb` is materialised as an explicit event trace.
-/

namespace ProteinPrep

/-- Python `str` values, embedded as lists of characters. -/
abbrev Str := List Char

/-- Coercion from Lean string literals. -/
def toL (s : String) : Str := s.toList

/-- Python whitespace for `str.strip()` (ASCII range). -/
def pySpace (c : Char) : Bool :=
  c = ' ' || c = '\t' || c = '\n' || c = '\x0d' || c = '\x0b' || c = '\x0c'

/-- Left part of Python `str.strip()`. -/
def lstrip (s : Str) : Str := s.dropWhile pySpace

/-- Right part of Python `str.strip()`. -/
def rstrip (s : Str) : Str := (s.reverse.dropWhile pySpace).reverse

/-- Python `str.strip()`. -/
def pyStrip (s : Str) : Str := rstrip (lstrip s)

/-- Python `str.upper()` (ASCII). -/
def upper (s : Str) : Str := s.map Char.toUpper

/-- Python slice `s[a:b]` (for `0 ≤ a ≤ b`). -/
def slice (s : Str) (a b : Nat) : Str := (s.drop a).take (b - a)

/-- Python `str.isalnum()` (ASCII alphanumerics). -/
def pyIsAlnum (s : Str) : Bool := !s.isEmpty && s.all Char.isAlphanum

/-- `" ".join(parts)`. -/
def joinSpace : List Str → Str
  | [] => []
  | [x] => x
  | x :: y :: rest => x ++ toL " " ++ joinSpace (y :: rest)

/-- `os.path.join` for a relative non-empty second component (POSIX). -/
def pathJoin (a b : Str) : Str := a ++ toL "/" ++ b

/-- `os.path.basename` (POSIX): the part after the last `/`. -/
def basename (p : Str) : Str :=
  p.foldl (fun acc c => if c = '/' then [] else acc ++ [c]) []

/-- Index of the last `.` in a name, if any. -/
def findLastDot (name : Str) : Option Nat :=
  match name.reverse.findIdx? (fun c => c = '.') with
  | none => none
  | some j => some (name.length - 1 - j)

/-- The stem (`[0]` component) of `os.path.splitext` on a bare file name:
the extension starts at the last dot, provided some earlier character of the
name is not a dot. -/
def splitextStem (name : Str) : Str :=
  match findLastDot name with
  | none => name
  | some i => if (name.take i).all (fun c => c = '.') then name else name.take i

-- -------------------- clean_pdb --------------------

/-- The tuple of `line.startswith(("ATOM  ", "HETATM", "TER", "END"))`. -/
def recordHeads : List Str := [toL "ATOM  ", toL "HETATM", toL "TER", toL "END"]

/-- The `line.startswith(...)` test selecting record lines. -/
def isRecordLine (line : Str) : Bool := recordHeads.any (fun p => p.isPrefixOf line)

/-- `rec = line[0:6].strip()`. -/
def recOf (line : Str) : Str := pyStrip (slice line 0 6)

/-- `chain_id = line[21:22].strip() if len(line) >= 22 else ""`. -/
def chainOf (line : Str) : Str :=
  if 22 ≤ line.length then pyStrip (slice line 21 22) else []

/-- `resname = line[17:20].strip().upper() if len(line) >= 20 else ""`. -/
def resnameOf (line : Str) : Str :=
  if 20 ≤ line.length then upper (pyStrip (slice line 17 20)) else []

/-- `keep_chains = [c.strip().upper() for c in (keep_chains or [])] if keep_chains else None`.
A `None` or empty argument is falsy and yields `None`. -/
def normalizeChains (keep_chains : Option (List Str)) : Option (List Str) :=
  match keep_chains with
  | none => none
  | some cs => if cs.isEmpty then none else some (cs.map (fun c => upper (pyStrip c)))

/-- `keep_ligands = [k.strip().upper() for k in (keep_ligands or [])] if keep_ligands else []`. -/
def normalizeLigands (keep_ligands : Option (List Str)) : List Str :=
  match keep_ligands with
  | none => []
  | some ks => ks.map (fun k => upper (pyStrip k))

/-- The water synonym tuple `("HOH", "H2O", "WAT")`. -/
def waterNames : List Str := [toL "HOH", toL "H2O", toL "WAT"]

/-- Normalized filter configuration used inside `clean_pdb`'s loop. -/
structure Cfg where
  remove_waters : Bool
  remove_hetero : Bool
  keep_chains : Option (List Str)
  keep_ligands : List Str

/-- `if keep_chains and chain_id and chain_id.upper() not in keep_chains`
(Python truthiness: a `None` or empty list, and an empty string, are falsy). -/
def chainDropped (keep_chains : Option (List Str)) (chain_id : Str) : Bool :=
  match keep_chains with
  | none => false
  | some ks => !ks.isEmpty && !chain_id.isEmpty && !ks.contains (upper chain_id)

/-- What `clean_pdb`'s loop body does with one line. -/
inductive LineAction where
  | dropChain
  | dropWater
  | dropHetero
  | keep
  | other
deriving DecidableEq, Repr

/-- The decision sequence of `clean_pdb`'s loop body (tests in source order:
record classification, chain filter, water filter, heteroatom filter). -/
def lineAction (cfg : Cfg) (line : Str) : LineAction :=
  if isRecordLine line then
    if chainDropped cfg.keep_chains (chainOf line) then .dropChain
    else if cfg.remove_waters && waterNames.contains (resnameOf line) then .dropWater
    else if cfg.remove_hetero && (recOf line == toL "HETATM")
            && !cfg.keep_ligands.contains (resnameOf line) then .dropHetero
    else .keep
  else .other

/-- The `removed` counter dictionary. -/
structure Removed where
  waters : Nat
  hetero_residues : Nat
  skipped_chains : Nat
deriving DecidableEq, Repr

/-- The loop state of `clean_pdb`: lines written so far, counters, `wrote_any`. -/
structure CleanState where
  out : List Str
  removed : Removed
  wrote_any : Bool
deriving DecidableEq, Repr

/-- State before the loop. -/
def initState : CleanState :=
  { out := [], removed := { waters := 0, hetero_residues := 0, skipped_chains := 0 },
    wrote_any := false }

/-- One iteration of `clean_pdb`'s loop. -/
def cleanStep (cfg : Cfg) (s : CleanState) (line : Str) : CleanState :=
  match lineAction cfg line with
  | .dropChain =>
    { s with removed := { s.removed with skipped_chains := s.removed.skipped_chains + 1 } }
  | .dropWater =>
    { s with removed := { s.removed with waters := s.removed.waters + 1 } }
  | .dropHetero =>
    { s with removed := { s.removed with hetero_residues := s.removed.hetero_residues + 1 } }
  | .keep => { s with out := s.out ++ [line], wrote_any := true }
  | .other => s

/-- The whole loop of `clean_pdb`. -/
def cleanFold (cfg : Cfg) (lines : List Str) : CleanState :=
  lines.foldl (cleanStep cfg) initState

/-- The normalized configuration built at the top of `clean_pdb`. -/
def mkCfg (remove_waters remove_hetero : Bool)
    (keep_chains keep_ligands : Option (List Str)) : Cfg :=
  { remove_waters := remove_waters, remove_hetero := remove_hetero,
    keep_chains := normalizeChains keep_chains,
    keep_ligands := normalizeLigands keep_ligands }

/-- Message of the `RuntimeError` raised when nothing was written. -/
def emptyErr : Str := toL "No ATOM/HETATM records written — check input or filters."

/-- `clean_pdb`: returns the written lines and the summary, or the
empty-result error when no line was written. -/
def clean_pdb (remove_waters remove_hetero : Bool)
    (keep_chains keep_ligands : Option (List Str)) (lines : List Str) :
    Except Str (List Str × Removed) :=
  if (cleanFold (mkCfg remove_waters remove_hetero keep_chains keep_ligands) lines).wrote_any then
    .ok ((cleanFold (mkCfg remove_waters remove_hetero keep_chains keep_ligands) lines).out,
         (cleanFold (mkCfg remove_waters remove_hetero keep_chains keep_ligands) lines).removed)
  else .error emptyErr

/-- The lines `clean_pdb` writes, characterised as a filter. -/
def writtenLines (cfg : Cfg) (lines : List Str) : List Str :=
  lines.filter (fun l => lineAction cfg l == .keep)

/-- Lines dropped or written, in total: the record lines seen so far. -/
def totalHandled (s : CleanState) : Nat :=
  s.removed.waters + s.removed.hetero_residues + s.removed.skipped_chains + s.out.length

-- -------------------- lemmas about the clean loop --------------------

lemma lineAction_of_not_record (cfg : Cfg) (l : Str) (h : isRecordLine l = false) :
    lineAction cfg l = .other := by
  simp [lineAction, h]

lemma record_of_lineAction {cfg : Cfg} {l : Str} {a : LineAction}
    (h : lineAction cfg l = a) (ha : a ≠ .other) : isRecordLine l = true := by
  cases hr : isRecordLine l
  · rw [lineAction_of_not_record cfg l hr] at h
    exact absurd h.symm ha
  · rfl

lemma cleanStep_out (cfg : Cfg) (s : CleanState) (l : Str) :
    (cleanStep cfg s l).out = if lineAction cfg l = .keep then s.out ++ [l] else s.out := by
  cases h : lineAction cfg l <;> simp [cleanStep, h]

lemma cleanStep_wrote (cfg : Cfg) (s : CleanState) (l : Str) :
    (cleanStep cfg s l).wrote_any = (s.wrote_any || lineAction cfg l == .keep) := by
  cases h : lineAction cfg l <;> simp [cleanStep, h]

lemma lineAction_ne_other (cfg : Cfg) (l : Str) (hr : isRecordLine l = true) :
    lineAction cfg l ≠ .other := by
  unfold lineAction
  rw [hr]
  simp only [if_true]
  split_ifs <;> simp

lemma cleanStep_total (cfg : Cfg) (s : CleanState) (l : Str) :
    totalHandled (cleanStep cfg s l) = totalHandled s + (if isRecordLine l then 1 else 0) := by
  cases h : lineAction cfg l
  case other =>
    have hr : isRecordLine l = false := by
      cases hrr : isRecordLine l
      · rfl
      · exact absurd h (lineAction_ne_other cfg l hrr)
    simp [cleanStep, h, hr]
  all_goals
  · have hr : isRecordLine l = true := record_of_lineAction h (by simp)
    simp [cleanStep, h, hr, totalHandled]
    try omega

lemma foldl_out (cfg : Cfg) (lines : List Str) : ∀ s : CleanState,
    (List.foldl (cleanStep cfg) s lines).out = s.out ++ writtenLines cfg lines := by
  induction lines with
  | nil => intro s; simp [writtenLines]
  | cons l ls ih =>
    intro s
    by_cases h : lineAction cfg l = .keep <;>
      simp [writtenLines, List.filter_cons, h, ih, cleanStep_out]

lemma foldl_wrote (cfg : Cfg) (lines : List Str) : ∀ s : CleanState,
    (List.foldl (cleanStep cfg) s lines).wrote_any
      = (s.wrote_any || !(writtenLines cfg lines).isEmpty) := by
  induction lines with
  | nil => intro s; simp [writtenLines]
  | cons l ls ih =>
    intro s
    by_cases h : lineAction cfg l = .keep
    · simp [writtenLines, List.filter_cons, h, ih, cleanStep_wrote, Bool.or_assoc]
    · have hb : (lineAction cfg l == LineAction.keep) = false := by
        simp [h]
      simp [writtenLines, List.filter_cons, hb, ih, cleanStep_wrote]

lemma foldl_total (cfg : Cfg) (lines : List Str) : ∀ s : CleanState,
    totalHandled (List.foldl (cleanStep cfg) s lines)
      = totalHandled s + (lines.filter (fun l => isRecordLine l)).length := by
  induction lines with
  | nil => intro s; simp
  | cons l ls ih =>
    intro s
    cases hr : isRecordLine l
    all_goals simp [List.filter_cons, hr, ih, cleanStep_total]
    all_goals omega

lemma cleanFold_out (cfg : Cfg) (lines : List Str) :
    (cleanFold cfg lines).out = writtenLines cfg lines := by
  simpa [cleanFold, initState] using foldl_out cfg lines initState

lemma cleanFold_wrote (cfg : Cfg) (lines : List Str) :
    (cleanFold cfg lines).wrote_any = !(writtenLines cfg lines).isEmpty := by
  simpa [cleanFold, initState] using foldl_wrote cfg lines initState

lemma cleanFold_total (cfg : Cfg) (lines : List Str) :
    totalHandled (cleanFold cfg lines) = (lines.filter (fun l => isRecordLine l)).length := by
  simpa [cleanFold, initState, totalHandled] using foldl_total cfg lines initState

/-- `clean_pdb` characterised by the written-lines filter. -/
lemma clean_pdb_eq (rw rh : Bool) (kc kl : Option (List Str)) (lines : List Str) :
    clean_pdb rw rh kc kl lines =
      if (writtenLines (mkCfg rw rh kc kl) lines).isEmpty then .error emptyErr
      else .ok (writtenLines (mkCfg rw rh kc kl) lines,
                (cleanFold (mkCfg rw rh kc kl) lines).removed) := by
  unfold clean_pdb
  rw [cleanFold_wrote, cleanFold_out]
  cases h : (writtenLines (mkCfg rw rh kc kl) lines).isEmpty <;> simp [h]

lemma normalizeChains_not_empty {kc : Option (List Str)} {ks : List Str}
    (h : normalizeChains kc = some ks) : ks.isEmpty = false := by
  cases kc with
  | none => simp [normalizeChains] at h
  | some cs =>
    by_cases hcs : cs.isEmpty <;> simp [normalizeChains, hcs] at h
    cases cs with
    | nil => simp at hcs
    | cons c cs' => simp [← h]

lemma isEmpty_false_of_ne_nil {α : Type} {l : List α} (h : l ≠ []) : l.isEmpty = false := by
  cases l with
  | nil => exact absurd rfl h
  | cons a as => rfl

-- -------------------- sample lines --------------------

/-- A full-width atom record on chain `A`, residue `ALA`. -/
def atomLineA : Str :=
  toL "ATOM      1  N   ALA A   1      11.104   6.134  -6.504  1.00  0.00           N"

/-- A full-width atom record on chain `B`, residue `ALA`. -/
def atomLineB : Str :=
  toL "ATOM      1  N   ALA B   1      11.104   6.134  -6.504  1.00  0.00           N"

/-- A full-width water heteroatom record on chain `B`, residue `HOH`. -/
def waterLineB : Str :=
  toL "HETATM    1  O   HOH B 401      10.000  10.000  10.000  1.00  0.00           O"

/-- A bare end-marker line: no chain column, no residue columns. -/
def endLine : Str := toL "END"

/-- A header line, not one of the four record kinds. -/
def headerLine : Str := toL "HEADER    HYDROLASE"

/-- A 20-character terminator line: shorter than the chain column (22) but
long enough that columns 18-20 hold a residue name, here `HOH`. -/
def shortWaterTer : Str := toL "TER              HOH"

-- -------------------- claims about clean_pdb --------------------

/-- C1: in `clean_pdb`, the chain filter is decided before the water and
heteroatom filters: for every atom/heteroatom/terminator/end-marker line whose
chain identifier is non-empty and (uppercased) outside the configured chain
allow-list, the loop body drops the line and increments only the skipped-chain
counter — whatever the residue name is, so the water and heteroatom counters
are untouched. -/
theorem chain_filter_evaluated_first (rw rh : Bool) (kc kl : Option (List Str))
    (ks : List Str) (l : Str) (s : CleanState)
    (hrec : isRecordLine l = true)
    (hkc : normalizeChains kc = some ks)
    (hch : chainOf l ≠ [])
    (hnot : ks.contains (upper (chainOf l)) = false) :
    cleanStep (mkCfg rw rh kc kl) s l =
      { s with removed := { s.removed with skipped_chains := s.removed.skipped_chains + 1 } } := by
  have hmem : upper (chainOf l) ∉ ks := by simpa using hnot
  have hcd : chainDropped (mkCfg rw rh kc kl).keep_chains (chainOf l) = true := by
    simp [mkCfg, hkc, chainDropped, normalizeChains_not_empty hkc,
          isEmpty_false_of_ne_nil hch, hmem]
  have ha : lineAction (mkCfg rw rh kc kl) l = .dropChain := by
    simp [lineAction, hrec, hcd]
  simp [cleanStep, ha]

/-- Witness for C1: a water heteroatom line on chain `B` against allow-list
`["A"]` is counted as a skipped chain, not as a water. -/
theorem chain_filter_evaluated_first_witness :
    cleanStep (mkCfg true true (some [toL "A"]) none) initState waterLineB =
      { out := [], removed := { waters := 0, hetero_residues := 0, skipped_chains := 1 },
        wrote_any := false } := by
  simpa [initState] using
    chain_filter_evaluated_first true true (some [toL "A"]) none [toL "A"] waterLineB initState
      (by decide) (by decide) (by decide) (by decide)

/-- C2: `clean_pdb` fails (with the descriptive empty-result error) exactly
when zero lines survive filtering; when at least one line is written it
returns the summary instead of raising. -/
theorem clean_error_iff_nothing_written (rw rh : Bool) (kc kl : Option (List Str))
    (lines : List Str) :
    (∃ e, clean_pdb rw rh kc kl lines = .error e) ↔
      writtenLines (mkCfg rw rh kc kl) lines = [] := by
  rw [clean_pdb_eq]
  by_cases h : writtenLines (mkCfg rw rh kc kl) lines = []
  · simp [h]
  · simp [h, isEmpty_false_of_ne_nil h]

/-- Witness for C2, error direction: a single filtered-out water line leaves
nothing written, and the claim's equivalence applies. -/
theorem clean_error_iff_nothing_written_witness :
    writtenLines (mkCfg true true none none) [waterLineB] = [] :=
  (clean_error_iff_nothing_written true true none none [waterLineB]).mp
    ⟨emptyErr, by rfl⟩

/-- Input refuting C3: one atom record on chain `B` plus a bare `END` line. -/
def c3input : List Str := [atomLineB, endLine]

/-- C3 as stated is false on the code: with allow-list `["A"]` every chain
identifier appearing in `c3input` is outside the allow-list (the `END` line
has an empty one), yet `clean_pdb` writes the `END` line and returns a
summary instead of failing. -/
theorem chain_exclusion_counterexample :
    (∀ l ∈ c3input, ¬ (upper (chainOf l) ∈ [toL "A"])) ∧
    (∀ l ∈ c3input, chainOf l ≠ [] → ¬ (upper (chainOf l) ∈ [toL "A"])) ∧
    clean_pdb true true (some [toL "A"]) none c3input =
      .ok ([endLine], { waters := 0, hetero_residues := 0, skipped_chains := 1 }) := by
  refine ⟨by decide, by decide, by rfl⟩

/-- C3 (amended): if the chain allow-list is configured and every
atom/heteroatom/terminator/end-marker line of the input has a non-empty chain
identifier whose uppercase form is outside the allow-list, then no line is
written and `clean_pdb` fails with the empty-result error. -/
theorem chain_exclusion_empty_error (rw rh : Bool) (kc kl : Option (List Str))
    (ks : List Str) (lines : List Str)
    (hkc : normalizeChains kc = some ks)
    (hall : ∀ l ∈ lines, isRecordLine l = true →
      chainOf l ≠ [] ∧ ks.contains (upper (chainOf l)) = false) :
    clean_pdb rw rh kc kl lines = .error emptyErr := by
  have hw : writtenLines (mkCfg rw rh kc kl) lines = [] := by
    apply List.filter_eq_nil_iff.mpr
    intro l hl
    simp only [beq_iff_eq]
    cases hr : isRecordLine l
    · rw [lineAction_of_not_record _ _ hr]
      simp
    · obtain ⟨hch, hnot⟩ := hall l hl hr
      have hmem : upper (chainOf l) ∉ ks := by simpa using hnot
      have hcd : chainDropped (mkCfg rw rh kc kl).keep_chains (chainOf l) = true := by
        simp [mkCfg, hkc, chainDropped, normalizeChains_not_empty hkc,
              isEmpty_false_of_ne_nil hch, hmem]
      simp [lineAction, hr, hcd]
  rw [clean_pdb_eq, hw]
  simp

/-- Witness for C3 (amended): a lone chain-`B` atom record against allow-list
`["A"]` produces the empty-result error. -/
theorem chain_exclusion_empty_error_witness :
    clean_pdb true true (some [toL "A"]) none [atomLineB] = .error emptyErr :=
  chain_exclusion_empty_error true true (some [toL "A"]) none [toL "A"] [atomLineB]
    (by decide) (by decide)

/-- C4: every output line of `clean_pdb` is byte-identical to an input line
that is an atom/heteroatom/terminator/end-marker record, and lines of any
other kind are neither copied nor counted: the three removal counters plus
the written lines add up to exactly the number of record lines. -/
theorem output_lines_from_input (rw rh : Bool) (kc kl : Option (List Str))
    (lines out : List Str) (removed : Removed)
    (h : clean_pdb rw rh kc kl lines = .ok (out, removed)) :
    (∀ l ∈ out, l ∈ lines ∧ isRecordLine l = true) ∧
    removed.waters + removed.hetero_residues + removed.skipped_chains + out.length
      = (lines.filter (fun l => isRecordLine l)).length := by
  rw [clean_pdb_eq] at h
  by_cases hw : (writtenLines (mkCfg rw rh kc kl) lines).isEmpty
  · simp [hw] at h
  · simp [hw] at h
    obtain ⟨hout, hrem⟩ := h
    constructor
    · intro l hl
      rw [← hout] at hl
      have hmem := (List.mem_filter.mp hl).1
      have hkeep := (List.mem_filter.mp hl).2
      exact ⟨hmem, record_of_lineAction (by simpa using hkeep) (by simp)⟩
    · have ht := cleanFold_total (mkCfg rw rh kc kl) lines
      unfold totalHandled at ht
      rw [cleanFold_out, hout, hrem] at ht
      exact ht

/-- Witness for C4: a run whose input mixes a header line (ignored), an atom
record, a water record and an end marker. -/
theorem output_lines_from_input_witness :
    (∀ l ∈ [atomLineA, endLine], l ∈ [headerLine, atomLineA, waterLineB, endLine]
        ∧ isRecordLine l = true) ∧
    (1 : Nat) + 0 + 0 + [atomLineA, endLine].length
      = ([headerLine, atomLineA, waterLineB, endLine].filter (fun l => isRecordLine l)).length := by
  have := output_lines_from_input true true none none
    [headerLine, atomLineA, waterLineB, endLine] [atomLineA, endLine]
    { waters := 1, hetero_residues := 0, skipped_chains := 0 } (by rfl)
  simpa using this

-- -------------------- C9: short TER/END lines --------------------

lemma rstrip_cons (c : Char) (xs : Str) (hc : pySpace c = false) :
    ∃ ys, rstrip (c :: xs) = c :: ys := by
  unfold rstrip
  rw [List.reverse_cons, List.dropWhile_append]
  by_cases h : (xs.reverse.dropWhile pySpace).isEmpty
  · refine ⟨[], ?_⟩
    simp [h, List.dropWhile_cons, hc]
  · refine ⟨(xs.reverse.dropWhile pySpace).reverse, ?_⟩
    simp [h]

lemma pyStrip_cons (c : Char) (xs : Str) (hc : pySpace c = false) :
    ∃ ys, pyStrip (c :: xs) = c :: ys := by
  unfold pyStrip lstrip
  rw [List.dropWhile_cons]
  rw [hc]
  exact rstrip_cons c xs hc

lemma recOf_cons (c : Char) (xs : Str) (hc : pySpace c = false) :
    ∃ ys, recOf (c :: xs) = c :: ys := by
  unfold recOf slice
  simp only [List.drop_zero, Nat.sub_zero, List.take_cons]
  exact pyStrip_cons c (xs.take 5) hc

/-- A line starting with `TER` or `END` never has `rec == "HETATM"`:
its stripped six-character head starts with `T` or `E`, not `H`. -/
lemma recOf_ne_HETATM {l : Str}
    (hter : (toL "TER").isPrefixOf l = true ∨ (toL "END").isPrefixOf l = true) :
    (recOf l == toL "HETATM") = false := by
  have hhead : ∃ c ys, recOf l = c :: ys ∧ (c = 'T' ∨ c = 'E') := by
    cases hter with
    | inl h =>
      obtain ⟨t, ht⟩ := List.isPrefixOf_iff_prefix.mp h
      obtain ⟨ys, hys⟩ := recOf_cons 'T' (toL "ER" ++ t) (by decide)
      have hsplit : toL "TER" ++ t = 'T' :: (toL "ER" ++ t) := rfl
      refine ⟨'T', ys, ?_, Or.inl rfl⟩
      rw [← ht, hsplit]
      exact hys
    | inr h =>
      obtain ⟨t, ht⟩ := List.isPrefixOf_iff_prefix.mp h
      obtain ⟨ys, hys⟩ := recOf_cons 'E' (toL "ND" ++ t) (by decide)
      have hsplit : toL "END" ++ t = 'E' :: (toL "ND" ++ t) := rfl
      refine ⟨'E', ys, ?_, Or.inr rfl⟩
      rw [← ht, hsplit]
      exact hys
  obtain ⟨c, ys, hys, hc⟩ := hhead
  rw [hys]
  apply beq_eq_false_iff_ne.mpr
  intro heq
  rw [show toL "HETATM" = 'H' :: toL "ETATM" from rfl] at heq
  injection heq with h1 h2
  cases hc with
  | inl hT => rw [hT] at h1; exact absurd h1 (by decide)
  | inr hE => rw [hE] at h1; exact absurd h1 (by decide)

lemma chainDropped_empty (kc : Option (List Str)) : chainDropped kc [] = false := by
  cases kc <;> simp [chainDropped]

/-- C9 is false as stated: `shortWaterTer` is a terminator line shorter than
the chain-identifier column, yet its residue name is non-empty (`HOH`), the
water filter drops it, and it is neither copied nor counted as written — with
all three filters active, a one-line input of it raises the empty-result
error. -/
theorem short_ter_counterexample :
    isRecordLine shortWaterTer = true ∧
    (toL "TER").isPrefixOf shortWaterTer = true ∧
    shortWaterTer.length < 22 ∧
    resnameOf shortWaterTer = toL "HOH" ∧
    lineAction (mkCfg true true (some [toL "A"]) none) shortWaterTer = .dropWater ∧
    clean_pdb true true (some [toL "A"]) none [shortWaterTer] = .error emptyErr := by
  exact ⟨by decide, by decide, by decide, by rfl, by rfl, by rfl⟩

/-- C9 (amended): a terminator or end-marker line shorter than 20 characters
(too short to reach the residue-name columns, hence also the chain column)
has an empty chain identifier and empty residue name, passes all three
filters under every Filter Configuration, and is copied and counted as
written — so an input containing such a line never triggers the empty-result
error. -/
theorem short_ter_end_kept (rw rh : Bool) (kc kl : Option (List Str)) (l : Str)
    (hter : (toL "TER").isPrefixOf l = true ∨ (toL "END").isPrefixOf l = true)
    (hshort : l.length < 20) :
    chainOf l = [] ∧ resnameOf l = [] ∧
    lineAction (mkCfg rw rh kc kl) l = .keep ∧
    (∀ lines, l ∈ lines → ∃ out removed,
       clean_pdb rw rh kc kl lines = .ok (out, removed) ∧ l ∈ out) := by
  have hch : chainOf l = [] := by
    unfold chainOf
    rw [if_neg (by omega)]
  have hres : resnameOf l = [] := by
    unfold resnameOf
    rw [if_neg (by omega)]
  have hrec : isRecordLine l = true := by
    unfold isRecordLine recordHeads
    cases hter with
    | inl h => simp [h]
    | inr h => simp [h]
  have hact : lineAction (mkCfg rw rh kc kl) l = .keep := by
    unfold lineAction
    rw [hrec, hch, hres, chainDropped_empty, recOf_ne_HETATM hter]
    simp
    intro _
    decide
  refine ⟨hch, hres, hact, ?_⟩
  intro lines hmem
  have hkeep : l ∈ writtenLines (mkCfg rw rh kc kl) lines :=
    List.mem_filter.mpr ⟨hmem, by simp [hact]⟩
  have hne : writtenLines (mkCfg rw rh kc kl) lines ≠ [] := List.ne_nil_of_mem hkeep
  refine ⟨writtenLines (mkCfg rw rh kc kl) lines,
          (cleanFold (mkCfg rw rh kc kl) lines).removed, ?_, hkeep⟩
  rw [clean_pdb_eq]
  simp [isEmpty_false_of_ne_nil hne]

/-- Witness for C9 (amended): the bare `END` line keeps a chain-filtered
input from raising the empty-result error. -/
theorem short_ter_end_kept_witness :
    ∃ out removed, clean_pdb true true (some [toL "A"]) none [atomLineB, endLine]
        = .ok (out, removed) ∧ endLine ∈ out :=
  (short_ter_end_kept true true (some [toL "A"]) none endLine
      (Or.inr (by decide)) (by decide)).2.2.2 [atomLineB, endLine] (by decide)

-- -------------------- C10: file-system effects of clean_pdb --------------------

/-- File-system effects of `clean_pdb` on its two files, in order. -/
inductive FsEvent where
  | openDest
  | readLine (l : Str)
  | writeLine (l : Str)
  | raiseEmpty
deriving DecidableEq, Repr

/-- Effects of one loop iteration: the line is read, and written when kept. -/
def lineEvents (cfg : Cfg) (l : Str) : List FsEvent :=
  .readLine l :: (if lineAction cfg l = .keep then [.writeLine l] else [])

/-- The effect trace of one `clean_pdb` call: the `with open(...)` header
opens (creates or truncates) the destination before the loop reads anything;
the final `raise` fires after the loop when nothing was written. -/
def cleanTrace (rw rh : Bool) (kc kl : Option (List Str)) (lines : List Str) :
    List FsEvent :=
  FsEvent.openDest ::
    (lines.flatMap (lineEvents (mkCfg rw rh kc kl)) ++
      (if (cleanFold (mkCfg rw rh kc kl) lines).wrote_any then [] else [.raiseEmpty]))

/-- Semantics of one event on the destination file (`none` = file absent). -/
def applyEvent (fs : Option (List Str)) (e : FsEvent) : Option (List Str) :=
  match e with
  | .openDest => some []
  | .writeLine l => some (fs.getD [] ++ [l])
  | .readLine _ => fs
  | .raiseEmpty => fs

/-- Destination-file state after a trace. -/
def applyTrace (fs : Option (List Str)) (tr : List FsEvent) : Option (List Str) :=
  tr.foldl applyEvent fs

lemma applyTrace_append (fs : Option (List Str)) (tr1 tr2 : List FsEvent) :
    applyTrace fs (tr1 ++ tr2) = applyTrace (applyTrace fs tr1) tr2 :=
  List.foldl_append _ _ _ _

lemma applyTrace_lines (cfg : Cfg) (lines : List Str) : ∀ acc : List Str,
    applyTrace (some acc) (lines.flatMap (lineEvents cfg))
      = some (acc ++ writtenLines cfg lines) := by
  induction lines with
  | nil => intro acc; simp [applyTrace, writtenLines]
  | cons l ls ih =>
    intro acc
    rw [List.flatMap_cons, applyTrace_append]
    by_cases h : lineAction cfg l = .keep
    · have h1 : applyTrace (some acc) (lineEvents cfg l) = some (acc ++ [l]) := by
        simp [lineEvents, h, applyTrace, applyEvent]
      rw [h1, ih]
      simp [writtenLines, List.filter_cons, h]
    · have hb : (lineAction cfg l == LineAction.keep) = false := by simp [h]
      have h1 : applyTrace (some acc) (lineEvents cfg l) = some acc := by
        simp [lineEvents, h, applyTrace, applyEvent]
      rw [h1, ih]
      simp [writtenLines, List.filter_cons, hb]

/-- C10: `clean_pdb` is not atomic with respect to the destination path: its
effect trace opens (creates or truncates) the destination before any input
line is read, so whatever was at that path beforehand, after the call the
destination holds exactly the surviving lines — and when the call fails with
the empty-result error, an empty destination file has been left on disk, the
pre-existing content already overwritten. -/
theorem clean_not_atomic (rw rh : Bool) (kc kl : Option (List Str))
    (lines : List Str) (prev : Option (List Str)) :
    (cleanTrace rw rh kc kl lines).head? = some .openDest ∧
    applyTrace prev (cleanTrace rw rh kc kl lines)
      = some (writtenLines (mkCfg rw rh kc kl) lines) ∧
    (clean_pdb rw rh kc kl lines = .error emptyErr →
      applyTrace prev (cleanTrace rw rh kc kl lines) = some []) := by
  have h2 : applyTrace prev (cleanTrace rw rh kc kl lines)
      = some (writtenLines (mkCfg rw rh kc kl) lines) := by
    unfold cleanTrace
    have hstep : applyTrace prev
        (FsEvent.openDest ::
          (lines.flatMap (lineEvents (mkCfg rw rh kc kl)) ++
            (if (cleanFold (mkCfg rw rh kc kl) lines).wrote_any then []
             else [.raiseEmpty])))
        = applyTrace (some [])
          (lines.flatMap (lineEvents (mkCfg rw rh kc kl)) ++
            (if (cleanFold (mkCfg rw rh kc kl) lines).wrote_any then []
             else [.raiseEmpty])) := rfl
    rw [hstep, applyTrace_append, applyTrace_lines]
    cases h : (cleanFold (mkCfg rw rh kc kl) lines).wrote_any <;>
      simp [applyTrace, applyEvent]
  refine ⟨rfl, h2, fun he => ?_⟩
  rw [clean_pdb_eq] at he
  by_cases hw : writtenLines (mkCfg rw rh kc kl) lines = []
  · rw [h2, hw]
  · rw [if_neg (by simp [isEmpty_false_of_ne_nil hw])] at he
    exact absurd he (by simp)

/-- Witness for C10: an input whose only line is filtered out leaves an empty
destination file in place of the previous content. -/
theorem clean_not_atomic_witness :
    applyTrace (some [toL "OLD CONTENT"]) (cleanTrace true true none none [waterLineB])
      = some [] :=
  (clean_not_atomic true true none none [waterLineB] (some [toL "OLD CONTENT"])).2.2 (by rfl)

-- -------------------- download_pdb --------------------

/-- `url = f"https://files.rcsb.org/download/{pdb_id.upper()}.pdb"`. -/
def pdbUrl (pdb_id : Str) : Str :=
  toL "https://files.rcsb.org/download/" ++ upper pdb_id ++ toL ".pdb"

/-- `last_err = None` rendered by the f-string of the terminal message. -/
def noneStr : Str := toL "None"

/-- `f"Failed to download {pdb_id} after {retries} attempts: {last_err}"`. -/
def failMsg (pdb_id : Str) (retries : Nat) (lastErr : Str) : Str :=
  toL "Failed to download " ++ pdb_id ++ toL " after " ++ (toString retries).toList
    ++ toL " attempts: " ++ lastErr

/-- `range(s, s + n)`: the attempt numbers of the retry loop. -/
def attemptList : Nat → Nat → List Nat
  | _, 0 => []
  | s, n + 1 => s :: attemptList (s + 1) n

/-- The `for attempt in range(1, retries + 1)` loop of `download_pdb`.
`net a` is the outcome of attempt `a`: `requests.get` followed by
`raise_for_status`, so any non-success HTTP status (like any
`RequestException`) is an error that the loop catches and retries.
Returns the last error (`none` when some attempt succeeded), whether the
destination file was written (it is opened and written only after
`raise_for_status` passes), and the number of attempts made. -/
def download_loop (net : Nat → Except Str Unit) :
    List Nat → Str → Option Str × Bool × Nat
  | [], lastErr => (some lastErr, false, 0)
  | a :: rest, _lastErr =>
    match net a with
    | .ok _ => (none, true, 1)
    | .error e =>
      let r := download_loop net rest e
      (r.1, r.2.1, r.2.2 + 1)

/-- `download_pdb`: retry loop plus the terminal `RuntimeError` carrying the
attempt count and the last underlying failure. The fixed `time.sleep(2)`
between attempts has no observable effect here and is not modelled. -/
def download_pdb (net : Str → Nat → Except Str Unit) (pdb_id : Str) (retries : Nat) :
    Except Str Unit × Bool × Nat :=
  match download_loop (net (pdbUrl pdb_id)) (attemptList 1 retries) noneStr with
  | (some lastErr, w, k) => (.error (failMsg pdb_id retries lastErr), w, k)
  | (none, w, k) => (.ok (), w, k)

-- -------------------- main workflow --------------------

/-- The result dictionary of the two OpenBabel helpers:
`{"cmd": " ".join(cmd), "rc": proc.returncode, "output": proc.stdout}`. -/
structure ObRes where
  cmd : Str
  rc : Int
  output : Str
deriving DecidableEq, Repr

/-- One target's report dictionary; absent keys are `none`. The `except`
branch of `main` appends a fresh dictionary holding only `input` and
`error`. -/
structure Report where
  input : Str
  fetched : Option Str := none
  cleaned : Option Str := none
  removed : Option Removed := none
  add_hydrogens : Option ObRes := none
  add_hydrogens_skipped : Option Str := none
  pdbqt : Option ObRes := none
  pdbqt_skipped : Option Str := none
  error : Option Str := none
deriving DecidableEq, Repr

/-- Observable side effects of processing one target: whether `download_pdb`
was invoked, the input files handed to the two OpenBabel invocations, and the
warning lines echoed. -/
structure Trace where
  fetchCalled : Bool := false
  hInput : Option Str := none
  convertInput : Option Str := none
  warnings : List Str := []
deriving DecidableEq, Repr

/-- The effect oracles of one run: `os.path.exists`, the outcome of
`download_pdb` per label, file contents per path, the probed OpenBabel
executable (`which("obabel") or which("babel")`, fixed for the run), and
`subprocess.run` (exit code and combined output per command line). -/
structure Env where
  fileExists : Str → Bool
  fetchOutcome : Str → Except Str Unit
  readLines : Str → List Str
  whichExe : Option Str
  runProc : List Str → Int × Str

/-- `add_hydrogens_with_obabel`: raises when no executable is found,
otherwise runs `[exe, input_file, "-O", output_file, "-h"]` and returns the
captured result without raising on non-zero exit. -/
def add_hydrogens_with_obabel (whichExe : Option Str) (runProc : List Str → Int × Str)
    (input_file output_file : Str) : Except Str ObRes :=
  match whichExe with
  | none => .error (toL "OpenBabel CLI not found (obabel).")
  | some exe =>
    .ok { cmd := joinSpace [exe, input_file, toL "-O", output_file, toL "-h"],
          rc := (runProc [exe, input_file, toL "-O", output_file, toL "-h"]).1,
          output := (runProc [exe, input_file, toL "-O", output_file, toL "-h"]).2 }

/-- `convert_to_pdbqt_with_obabel`: same shape without the `-h` flag. -/
def convert_to_pdbqt_with_obabel (whichExe : Option Str) (runProc : List Str → Int × Str)
    (input_file output_file : Str) : Except Str ObRes :=
  match whichExe with
  | none => .error (toL "OpenBabel CLI not found (obabel).")
  | some exe =>
    .ok { cmd := joinSpace [exe, input_file, toL "-O", output_file],
          rc := (runProc [exe, input_file, toL "-O", output_file]).1,
          output := (runProc [exe, input_file, toL "-O", output_file]).2 }

/-- `os.path.join(out_dir, f"{pdb_label}_clean.pdb")`. -/
def cleanedPathOf (out_dir label : Str) : Str := pathJoin out_dir (label ++ toL "_clean.pdb")

/-- `os.path.join(out_dir, f"{pdb_label}_added_h.pdb")`. -/
def addedHPathOf (out_dir label : Str) : Str := pathJoin out_dir (label ++ toL "_added_h.pdb")

/-- `os.path.join(out_dir, f"{pdb_label}.pdbqt")`. -/
def pdbqtPathOf (out_dir label : Str) : Str := pathJoin out_dir (label ++ toL ".pdbqt")

/-- The warning echoed when hydrogen addition exits non-zero. -/
def hWarnMsg : Str := toL "[WARN] OpenBabel returned non-zero exit during hydrogen addition."

/-- The `if auto_add_h:` block of `main`: on non-zero exit the pipeline keeps
the pre-hydrogenation `processed` file and warns; when OpenBabel is not ready
the step is skipped with a reason string. Errors abort the target. -/
def hydrogensStep (env : Env) (auto_add_h obabelReady : Bool) (out_dir label processed : Str)
    (report : Report) (tr : Trace) : Except (Str × Trace) (Report × Str × Trace) :=
  if auto_add_h then
    if obabelReady then
      match add_hydrogens_with_obabel env.whichExe env.runProc processed
          (addedHPathOf out_dir label) with
      | .error e => .error (e, { tr with hInput := some processed })
      | .ok obres =>
        if obres.rc == 0 then
          .ok ({ report with add_hydrogens := some obres }, addedHPathOf out_dir label,
               { tr with hInput := some processed })
        else
          .ok ({ report with add_hydrogens := some obres }, processed,
               { tr with hInput := some processed, warnings := tr.warnings ++ [hWarnMsg] })
    else .ok ({ report with add_hydrogens_skipped := some (toL "OpenBabel not available") },
              processed, tr)
  else .ok (report, processed, tr)

/-- The `if auto_pdbqt:` block of `main`. -/
def pdbqtStep (env : Env) (auto_pdbqt obabelReady : Bool) (out_dir label processed : Str)
    (report : Report) (tr : Trace) : Except (Str × Trace) (Report × Trace) :=
  if auto_pdbqt then
    if obabelReady then
      match convert_to_pdbqt_with_obabel env.whichExe env.runProc processed
          (pdbqtPathOf out_dir label) with
      | .error e => .error (e, { tr with convertInput := some processed })
      | .ok obres =>
        .ok ({ report with pdbqt := some obres }, { tr with convertInput := some processed })
    else .ok ({ report with pdbqt_skipped := some (toL "OpenBabel not available") }, tr)
  else .ok (report, tr)

/-- Lines 197-228 of `main`: clean the fetched file, then the two optional
OpenBabel steps; any raised error is converted by the `except` branch into a
fresh error-only report. -/
def processAfterResolve (env : Env) (remove_waters remove_hetero : Bool)
    (keep_chain_list keep_lig_list : Option (List Str))
    (auto_add_h auto_pdbqt obabelReady : Bool)
    (out_dir t fetched label : Str) (tr : Trace) : Report × Trace :=
  match clean_pdb remove_waters remove_hetero keep_chain_list keep_lig_list
      (env.readLines fetched) with
  | .error e => ({ input := t, error := some e }, tr)
  | .ok res =>
    match hydrogensStep env auto_add_h obabelReady out_dir label (cleanedPathOf out_dir label)
        { input := t, fetched := some fetched, cleaned := some (cleanedPathOf out_dir label),
          removed := some res.2 } tr with
    | .error et => ({ input := t, error := some et.1 }, et.2)
    | .ok rpt =>
      match pdbqtStep env auto_pdbqt obabelReady out_dir label rpt.2.1 rpt.1 rpt.2.2 with
      | .error et => ({ input := t, error := some et.1 }, et.2)
      | .ok rt => (rt.1, rt.2)

/-- `str(e)` of the `typer.Exit` raised on an unresolvable target, modelled
as its message. -/
def invalidMsg (t : Str) : Str := toL "Invalid PDB identifier or file path: " ++ t

/-- One iteration of the target loop of `main` (lines 183-231): resolve the
target (existing path, else 4-character alphanumeric identifier, else fail
before fetching), fetch when needed, then clean and post-process. The
returned `Trace` records whether `download_pdb` was ever invoked. -/
def processTarget (env : Env) (remove_waters remove_hetero : Bool)
    (keep_chain_list keep_lig_list : Option (List Str))
    (auto_add_h auto_pdbqt obabelReady : Bool)
    (out_dir t : Str) : Report × Trace :=
  if env.fileExists t then
    processAfterResolve env remove_waters remove_hetero keep_chain_list keep_lig_list
      auto_add_h auto_pdbqt obabelReady out_dir t t (splitextStem (basename t)) {}
  else if t.length == 4 && pyIsAlnum t then
    match env.fetchOutcome (upper t) with
    | .error e => ({ input := t, error := some e }, { fetchCalled := true })
    | .ok _ =>
      processAfterResolve env remove_waters remove_hetero keep_chain_list keep_lig_list
        auto_add_h auto_pdbqt obabelReady out_dir t
        (pathJoin out_dir (upper t ++ toL ".pdb")) (upper t) { fetchCalled := true }
  else ({ input := t, error := some (invalidMsg t) }, {})

/-- The whole target loop: one report (and trace) per target, in order,
independent of the other targets' outcomes. -/
def runTargets (env : Env) (remove_waters remove_hetero : Bool)
    (keep_chain_list keep_lig_list : Option (List Str))
    (auto_add_h auto_pdbqt obabelReady : Bool)
    (out_dir : Str) (targets : List Str) : List (Report × Trace) :=
  targets.map (processTarget env remove_waters remove_hetero keep_chain_list keep_lig_list
    auto_add_h auto_pdbqt obabelReady out_dir)

-- -------------------- environments for concrete runs --------------------

/-- A run environment with no local files, a succeeding fetch, a fixed
two-line file everywhere, and no OpenBabel. -/
def env0 : Env :=
  { fileExists := fun _ => false,
    fetchOutcome := fun _ => .ok (),
    readLines := fun _ => [atomLineA, endLine],
    whichExe := none,
    runProc := fun _ => (0, []) }

/-- A run environment where every path exists locally, OpenBabel is found,
and every invocation of it exits with code 1. -/
def env1 : Env :=
  { fileExists := fun _ => true,
    fetchOutcome := fun _ => .ok (),
    readLines := fun _ => [atomLineA, endLine],
    whichExe := some (toL "obabel"),
    runProc := fun _ => (1, toL "obabel failed") }

-- -------------------- C5: resolution fails before fetching --------------------

/-- C5: a target that is not an existing local path and not exactly a
4-character alphanumeric identifier fails resolution: the target's report is
the invalid-identifier error entry and `download_pdb` is never invoked. -/
theorem invalid_target_no_fetch (env : Env) (rw rh : Bool) (kc kl : Option (List Str))
    (ah ap ob : Bool) (out_dir t : Str)
    (hne : env.fileExists t = false)
    (hbad : ¬(t.length = 4 ∧ pyIsAlnum t = true)) :
    processTarget env rw rh kc kl ah ap ob out_dir t
      = ({ input := t, error := some (invalidMsg t) }, { fetchCalled := false }) := by
  have hb : (t.length == 4 && pyIsAlnum t) = false := by
    cases h4 : (t.length == 4 && pyIsAlnum t)
    · rfl
    · obtain ⟨h41, h42⟩ := Bool.and_eq_true _ _ |>.mp h4
      exact absurd ⟨by simpa using h41, h42⟩ hbad
  simp [processTarget, hne, hb]

/-- Witness for C5: the 5-character non-file target `"ABCDE"`. -/
theorem invalid_target_no_fetch_witness :
    processTarget env0 true true none none false false false (toL "out") (toL "ABCDE")
      = ({ input := toL "ABCDE", error := some (invalidMsg (toL "ABCDE")) },
         { fetchCalled := false }) :=
  invalid_target_no_fetch env0 true true none none false false false (toL "out") (toL "ABCDE")
    (by rfl) (by decide)

-- -------------------- C6: batch isolation --------------------

lemma hydrogensStep_ok_fields {env : Env} {ah ob : Bool} {out_dir label processed : Str}
    {report : Report} {tr : Trace} {r' : Report} {p : Str} {tr' : Trace}
    (h : hydrogensStep env ah ob out_dir label processed report tr = .ok (r', p, tr')) :
    r'.error = report.error ∧ r'.removed = report.removed := by
  unfold hydrogensStep at h
  split at h
  · split at h
    · split at h
      · exact absurd h (by simp)
      · split at h
        · obtain ⟨h1, _, _⟩ := by simpa using h
          rw [← h1]
          exact ⟨rfl, rfl⟩
        · obtain ⟨h1, _, _⟩ := by simpa using h
          rw [← h1]
          exact ⟨rfl, rfl⟩
    · obtain ⟨h1, _, _⟩ := by simpa using h
      rw [← h1]
      exact ⟨rfl, rfl⟩
  · obtain ⟨h1, _, _⟩ := by simpa using h
    rw [← h1]
    exact ⟨rfl, rfl⟩

lemma pdbqtStep_ok_fields {env : Env} {ap ob : Bool} {out_dir label processed : Str}
    {report : Report} {tr : Trace} {r' : Report} {tr' : Trace}
    (h : pdbqtStep env ap ob out_dir label processed report tr = .ok (r', tr')) :
    r'.error = report.error ∧ r'.removed = report.removed := by
  unfold pdbqtStep at h
  split at h
  · split at h
    · split at h
      · exact absurd h (by simp)
      · obtain ⟨h1, _⟩ := by simpa using h
        rw [← h1]
        exact ⟨rfl, rfl⟩
    · obtain ⟨h1, _⟩ := by simpa using h
      rw [← h1]
      exact ⟨rfl, rfl⟩
  · obtain ⟨h1, _⟩ := by simpa using h
    rw [← h1]
    exact ⟨rfl, rfl⟩

/-- Every report appended by the target loop is exactly one of an error
entry (no removal summary) or a success entry (a removal summary, no error
key). -/
lemma processTarget_shape (env : Env) (rw rh : Bool) (kc kl : Option (List Str))
    (ah ap ob : Bool) (out_dir t : Str) :
    ((processTarget env rw rh kc kl ah ap ob out_dir t).1.error.isSome = true ∧
     (processTarget env rw rh kc kl ah ap ob out_dir t).1.removed = none) ∨
    ((processTarget env rw rh kc kl ah ap ob out_dir t).1.error = none ∧
     (processTarget env rw rh kc kl ah ap ob out_dir t).1.removed.isSome = true) := by
  have after : ∀ (fetched label : Str) (tr : Trace),
      ((processAfterResolve env rw rh kc kl ah ap ob out_dir t fetched label tr).1.error.isSome = true ∧
       (processAfterResolve env rw rh kc kl ah ap ob out_dir t fetched label tr).1.removed = none) ∨
      ((processAfterResolve env rw rh kc kl ah ap ob out_dir t fetched label tr).1.error = none ∧
       (processAfterResolve env rw rh kc kl ah ap ob out_dir t fetched label tr).1.removed.isSome = true) := by
    intro fetched label tr
    unfold processAfterResolve
    cases hc : clean_pdb rw rh kc kl (env.readLines fetched) with
    | error e => left; simp [hc]
    | ok res =>
      cases hh : hydrogensStep env ah ob out_dir label (cleanedPathOf out_dir label)
          { input := t, fetched := some fetched, cleaned := some (cleanedPathOf out_dir label),
            removed := some res.2 } tr with
      | error et => left; simp [hc, hh]
      | ok rpt =>
        cases hp : pdbqtStep env ap ob out_dir label rpt.2.1 rpt.1 rpt.2.2 with
        | error et => left; simp [hc, hh, hp]
        | ok rt =>
          right
          obtain ⟨he1, hr1⟩ := hydrogensStep_ok_fields hh
          obtain ⟨he2, hr2⟩ := pdbqtStep_ok_fields hp
          simp only [hc, hh, hp]
          constructor
          · rw [he2, he1]
          · rw [hr2, hr1]
            simp
  unfold processTarget
  split
  · exact after t (splitextStem (basename t)) {}
  · split
    · cases hf : env.fetchOutcome (upper t) with
      | error e => left; simp
      | ok u => exact after (pathJoin out_dir (upper t ++ toL ".pdb")) (upper t)
                  { fetchCalled := true }
    · left; simp

/-- C6: batch isolation. Each target contributes exactly one entry to the
run-level report list, every entry is exactly one of an error entry or a
success entry, and in the concrete batch where target 1 fails resolution and
target 2 succeeds the run yields a two-entry report with one error entry
followed by one success entry. -/
theorem batch_isolation :
    (∀ (env : Env) (rw rh : Bool) (kc kl : Option (List Str)) (ah ap ob : Bool)
       (out_dir : Str) (targets : List Str),
       (runTargets env rw rh kc kl ah ap ob out_dir targets).length = targets.length) ∧
    (∀ (env : Env) (rw rh : Bool) (kc kl : Option (List Str)) (ah ap ob : Bool)
       (out_dir : Str) (targets : List Str)
       (r : Report × Trace), r ∈ runTargets env rw rh kc kl ah ap ob out_dir targets →
       (r.1.error.isSome = true ∧ r.1.removed = none) ∨
       (r.1.error = none ∧ r.1.removed.isSome = true)) ∧
    ((runTargets env0 true true none none false false false (toL "out")
        [toL "ABCDE", toL "1abc"]).map (fun r => r.1.error.isSome) = [true, false] ∧
     (runTargets env0 true true none none false false false (toL "out")
        [toL "ABCDE", toL "1abc"]).map (fun r => r.1.removed.isSome) = [false, true]) := by
  refine ⟨?_, ?_, by decide, by decide⟩
  · intro env rw rh kc kl ah ap ob out_dir targets
    simp [runTargets]
  · intro env rw rh kc kl ah ap ob out_dir targets r hr
    obtain ⟨t, _, ht⟩ := List.mem_map.mp hr
    rw [← ht]
    exact processTarget_shape env rw rh kc kl ah ap ob out_dir t

/-- Witness for C6: the per-entry shape applied to the first entry of the
concrete two-target batch. -/
theorem batch_isolation_witness :
    (runTargets env0 true true none none false false false (toL "out")
        [toL "ABCDE", toL "1abc"]).length = 2 ∧
    (((processTarget env0 true true none none false false false (toL "out")
        (toL "ABCDE")).1.error.isSome = true ∧
      (processTarget env0 true true none none false false false (toL "out")
        (toL "ABCDE")).1.removed = none) ∨
     ((processTarget env0 true true none none false false false (toL "out")
        (toL "ABCDE")).1.error = none ∧
      (processTarget env0 true true none none false false false (toL "out")
        (toL "ABCDE")).1.removed.isSome = true)) :=
  ⟨batch_isolation.1 env0 true true none none false false false (toL "out")
      [toL "ABCDE", toL "1abc"],
   batch_isolation.2.1 env0 true true none none false false false (toL "out")
      [toL "ABCDE", toL "1abc"]
      (processTarget env0 true true none none false false false (toL "out") (toL "ABCDE"))
      (by simp [runTargets])⟩

-- -------------------- C7: download retries --------------------

lemma attemptList_length : ∀ (s n : Nat), (attemptList s n).length = n := by
  intro s n
  induction n generalizing s with
  | zero => rfl
  | succ m ih => simp [attemptList, ih]

lemma attemptList_mem_bounds : ∀ (n s a : Nat), a ∈ attemptList s n → s ≤ a ∧ a < s + n := by
  intro n
  induction n with
  | zero => intro s a ha; simp [attemptList] at ha
  | succ m ih =>
    intro s a ha
    simp only [attemptList, List.mem_cons] at ha
    cases ha with
    | inl h => omega
    | inr h => have := ih (s + 1) a h; omega

lemma download_loop_all_fail (f : Nat → Except Str Unit) (errs : Nat → Str) :
    ∀ (attempts : List Nat) (lastErr : Str),
      (∀ a ∈ attempts, f a = .error (errs a)) →
      download_loop f attempts lastErr
        = (some (attempts.foldl (fun _ a => errs a) lastErr), false, attempts.length) := by
  intro attempts
  induction attempts with
  | nil => intro lastErr _; rfl
  | cons a rest ih =>
    intro lastErr hall
    have ha : f a = .error (errs a) := hall a (by simp)
    have hrest := ih (errs a) (fun b hb => hall b (by simp [hb]))
    simp [download_loop, ha, hrest]

lemma attemptList_foldl_last (errs : Nat → Str) : ∀ (n s : Nat) (x : Str), 1 ≤ n →
    (attemptList s n).foldl (fun _ a => errs a) x = errs (s + n - 1) := by
  intro n
  induction n with
  | zero => intro s x h; omega
  | succ m ih =>
    intro s x h
    by_cases hm : 1 ≤ m
    · rw [show attemptList s (m + 1) = s :: attemptList (s + 1) m from rfl]
      rw [List.foldl_cons, ih (s + 1) (errs s) hm]
      congr 1
      omega
    · have hm0 : m = 0 := by omega
      subst hm0
      rw [show attemptList s 1 = [s] from rfl]
      simp

/-- C7: when every attempt fails (`requests.get` raising or any non-success
HTTP status via `raise_for_status`), `download_pdb` makes exactly `retries`
attempts, never writes the destination file, and raises the terminal error
carrying the attempt count and the last underlying failure reason. -/
theorem download_exhausts_retries (net : Str → Nat → Except Str Unit) (errs : Nat → Str)
    (pdb_id : Str) (retries : Nat) (hr : 1 ≤ retries)
    (hfail : ∀ i, 1 ≤ i → i ≤ retries → net (pdbUrl pdb_id) i = .error (errs i)) :
    download_pdb net pdb_id retries
      = (.error (failMsg pdb_id retries (errs retries)), false, retries) := by
  have hmem : ∀ a ∈ attemptList 1 retries, net (pdbUrl pdb_id) a = .error (errs a) := by
    intro a ha
    have hb := attemptList_mem_bounds retries 1 a ha
    exact hfail a hb.1 (by omega)
  unfold download_pdb
  rw [download_loop_all_fail _ errs _ _ hmem,
      attemptList_foldl_last errs retries 1 noneStr hr, attemptList_length]
  have : 1 + retries - 1 = retries := by omega
  rw [this]

/-- Witness for C7: three attempts that all fail with `"boom"`. -/
theorem download_exhausts_retries_witness :
    download_pdb (fun _ _ => .error (toL "boom")) (toL "1abc") 3
      = (.error (failMsg (toL "1abc") 3 (toL "boom")), false, 3) :=
  download_exhausts_retries (fun _ _ => .error (toL "boom")) (fun _ => toL "boom")
    (toL "1abc") 3 (by decide) (fun _ _ _ => rfl)

-- -------------------- C8: non-zero hydrogen addition --------------------

/-- C8: when hydrogen addition is enabled and OpenBabel exits non-zero, the
target is not aborted: the report keeps the removal summary and no error,
records the captured exit code and output under `add_hydrogens`, the warning
is emitted, and the conversion step (when enabled) is fed the cleaned
pre-hydrogenation file rather than the hydrogen-addition output. -/
theorem hydrogens_nonzero_keeps_cleaned (env : Env) (rw rh : Bool)
    (kc kl : Option (List Str)) (ap : Bool) (out_dir t exe : Str)
    (rc : Int) (outTxt : Str) (out : List Str) (removed : Removed)
    (hex : env.fileExists t = true)
    (hwhich : env.whichExe = some exe)
    (hclean : clean_pdb rw rh kc kl (env.readLines t) = .ok (out, removed))
    (hrun : env.runProc [exe, cleanedPathOf out_dir (splitextStem (basename t)), toL "-O",
              addedHPathOf out_dir (splitextStem (basename t)), toL "-h"] = (rc, outTxt))
    (hrc : ¬ rc = 0) :
    (processTarget env rw rh kc kl true ap true out_dir t).1.error = none ∧
    (processTarget env rw rh kc kl true ap true out_dir t).1.removed = some removed ∧
    (processTarget env rw rh kc kl true ap true out_dir t).1.add_hydrogens = some
      { cmd := joinSpace [exe, cleanedPathOf out_dir (splitextStem (basename t)), toL "-O",
                          addedHPathOf out_dir (splitextStem (basename t)), toL "-h"],
        rc := rc, output := outTxt } ∧
    (processTarget env rw rh kc kl true ap true out_dir t).2.hInput
      = some (cleanedPathOf out_dir (splitextStem (basename t))) ∧
    hWarnMsg ∈ (processTarget env rw rh kc kl true ap true out_dir t).2.warnings ∧
    (ap = true → (processTarget env rw rh kc kl true ap true out_dir t).2.convertInput
      = some (cleanedPathOf out_dir (splitextStem (basename t)))) := by
  have hb : (rc == 0) = false := by simpa using hrc
  cases hap : ap with
  | false =>
    simp [processTarget, hex, processAfterResolve, hclean, hydrogensStep,
          add_hydrogens_with_obabel, hwhich, hrun, hb, pdbqtStep,
          convert_to_pdbqt_with_obabel]
  | true =>
    simp [processTarget, hex, processAfterResolve, hclean, hydrogensStep,
          add_hydrogens_with_obabel, hwhich, hrun, hb, pdbqtStep,
          convert_to_pdbqt_with_obabel]

/-- Witness for C8: a local file target with OpenBabel exiting 1 and
conversion enabled. -/
theorem hydrogens_nonzero_keeps_cleaned_witness :
    (processTarget env1 true true none none true true true (toL "out") (toL "my.pdb")).1.error
      = none ∧
    (processTarget env1 true true none none true true true (toL "out") (toL "my.pdb")).1.removed
      = some { waters := 0, hetero_residues := 0, skipped_chains := 0 } ∧
    (processTarget env1 true true none none true true true (toL "out")
        (toL "my.pdb")).1.add_hydrogens = some
      { cmd := joinSpace [toL "obabel", cleanedPathOf (toL "out") (splitextStem (basename (toL "my.pdb"))),
          toL "-O", addedHPathOf (toL "out") (splitextStem (basename (toL "my.pdb"))), toL "-h"],
        rc := 1, output := toL "obabel failed" } ∧
    (processTarget env1 true true none none true true true (toL "out") (toL "my.pdb")).2.hInput
      = some (cleanedPathOf (toL "out") (splitextStem (basename (toL "my.pdb")))) ∧
    hWarnMsg ∈ (processTarget env1 true true none none true true true (toL "out")
        (toL "my.pdb")).2.warnings ∧
    (true = true → (processTarget env1 true true none none true true true (toL "out")
        (toL "my.pdb")).2.convertInput
      = some (cleanedPathOf (toL "out") (splitextStem (basename (toL "my.pdb"))))) :=
  hydrogens_nonzero_keeps_cleaned env1 true true none none true (toL "out") (toL "my.pdb")
    (toL "obabel") 1 (toL "obabel failed") [atomLineA, endLine]
    { waters := 0, hetero_residues := 0, skipped_chains := 0 }
    rfl rfl (by rfl) rfl (by decide)

end ProteinPrep
